import Mathlib

/-!
Verification of the analytics/derivation engine of a personal trading journal.

The embedding follows the TypeScript source:
* `src/unnamed/part_000` (types): `Trade`, `Outcome`, `TradeType`;
* `src/components/Dashboard.tsx`: summary statistics, weekly/daily series,
  cumulative risk equity curve, day-of-week breakdown, filter & sort pipeline;
* `src/services/geminiService.ts`: stop-sweep-notes gating;
* `src/hooks/useTrades.ts`: `addTrade` / `deleteTrade`.

Modelling conventions:
* JS numbers are embedded as `ℚ` (exact arithmetic; the source performs only
  `+ - * /` and comparisons on them).
* The `date` field, an ISO timestamp string in the source, is embedded as the
  epoch-milliseconds integer that `new Date(s).getTime()` yields; the ISO
  rendering is in bijection with it, so day keys are embedded as integer day
  indices (`toISOString().split(sep)[0]` corresponds to `Int.fdiv ms 86400000`).
* The environment's timezone is an explicit parameter `tzMin`: the local UTC
  offset in minutes east of UTC (`tzMin = -date.getTimezoneOffset()`), assumed
  fixed (no DST transitions).  Local date components of an instant `ms` are
  the UTC components of `ms + tzMin * 60000`.
* `Array.prototype.sort(cmp)` is embedded as the stable `List.mergeSort`
  with `le a b := 0 ≤ cmp b a`: the engines' merge steps take the right-hand
  element before the left one exactly when `cmp right left < 0`, so the left
  element is kept first iff `0 ≤ cmp right left`.
-/

inductive TradeType where
  | BUY
  | SELL
deriving DecidableEq, Repr

inductive Outcome where
  | TP
  | SL
  | BE
  | NO_TRADE
deriving DecidableEq, Repr

/-- The `Trade` interface of the source (`src/unnamed/part_000`).  Optional
fields are `Option`; `date` is epoch milliseconds (see the header comment);
`images` keeps the label/payload pairs of the attachment mapping. -/
structure Trade where
  id : String
  date : ℤ
  type : Option TradeType := none
  outcome : Outcome
  slSize : Option ℚ := none
  tpSize : Option ℚ := none
  rr : Option ℚ := none
  rangeSize : Option ℚ := none
  notes : String := ""
  activationTime : Option String := none
  slSweepNotes : Option String := none
  images : List (String × String) := []
deriving DecidableEq, Repr

/-- JS truthiness of an optional number: `undefined`, `null` and `0` are
falsy. -/
def numTruthy : Option ℚ → Bool
  | none => false
  | some q => q != 0

/-- Value of an optional number once known truthy (the source only divides by
`slSize` after checking truthiness and positivity). -/
def optVal (o : Option ℚ) : ℚ := o.getD 0

/-- Per-trade contribution to `totalRREarned` in `stats`
(`Dashboard.tsx` lines 78-93): the body of the `reduce`, each branch of which
adds a value independent of the accumulator. -/
def rrContribStats (t : Trade) : ℚ :=
  match t.rr with
  | some r => if t.outcome = Outcome.SL then -1 else r
  | none =>
    if t.outcome = Outcome.TP && numTruthy t.slSize && numTruthy t.tpSize
        && decide (0 < optVal t.slSize) then
      optVal t.tpSize / optVal t.slSize
    else if t.outcome = Outcome.SL then -1
    else 0

/-- Per-trade risk multiple in `cumulativeRRData` (`Dashboard.tsx` lines
264-278: the `tradeRR` local); identical to the `stats` version except that
the source checks `tpSize` truthiness before `slSize`. -/
def tradeRRCurve (t : Trade) : ℚ :=
  match t.rr with
  | some r => if t.outcome = Outcome.SL then -1 else r
  | none =>
    if t.outcome = Outcome.TP && numTruthy t.tpSize && numTruthy t.slSize
        && decide (0 < optVal t.slSize) then
      optVal t.tpSize / optVal t.slSize
    else if t.outcome = Outcome.SL then -1
    else 0

/-- `stats.totalTrades`: count of records whose outcome is not `NO_TRADE`. -/
def totalTrades (trades : List Trade) : ℕ :=
  (trades.filter fun t => t.outcome ≠ Outcome.NO_TRADE).length

/-- `stats.wins`. -/
def wins (trades : List Trade) : ℕ :=
  (trades.filter fun t => t.outcome = Outcome.TP).length

/-- `stats.losses`. -/
def losses (trades : List Trade) : ℕ :=
  (trades.filter fun t => t.outcome = Outcome.SL).length

/-- `stats.breakEvens`. -/
def breakEvens (trades : List Trade) : ℕ :=
  (trades.filter fun t => t.outcome = Outcome.BE).length

/-- `stats.winRate` as the numeric value the source formats with
`toFixed(1)` (formatting is display-only): guarded by
`totalTrades > 0 && wins + losses > 0`, else the zero fallback. -/
def winRate (trades : List Trade) : ℚ :=
  if 0 < totalTrades trades ∧ 0 < wins trades + losses trades then
    ((wins trades : ℚ) / ((wins trades : ℚ) + (losses trades : ℚ))) * 100
  else 0

/-- `stats.totalRREarned`: the `reduce` over the non-`NO_TRADE` records. -/
def totalRREarned (trades : List Trade) : ℚ :=
  (trades.filter fun t => t.outcome ≠ Outcome.NO_TRADE).foldl
    (fun acc t => acc + rrContribStats t) 0

/-- `stats.averageRR`: `totalTrades > 0 ? totalRREarned / totalTrades : 0`. -/
def averageRR (trades : List Trade) : ℚ :=
  if 0 < totalTrades trades then totalRREarned trades / (totalTrades trades : ℚ)
  else 0

/-- Restatement of the spec's wording for `winRate` (§4.2): `wins/(wins+losses)`
as a percentage, `0` when the denominator is zero.  Used to compare the
source's guard with the spec's. -/
def winRateSpec (trades : List Trade) : ℚ :=
  if wins trades + losses trades = 0 then 0
  else ((wins trades : ℚ) / ((wins trades : ℚ) + (losses trades : ℚ))) * 100

/-- Restatement of the spec's wording for `averageRisk` (§4.2):
`totalRiskEarned / totalTrades`, `0` when `totalTrades = 0`. -/
def averageRRSpec (trades : List Trade) : ℚ :=
  if totalTrades trades = 0 then 0
  else totalRREarned trades / (totalTrades trades : ℚ)

theorem wins_add_losses_le_totalTrades (trades : List Trade) :
    wins trades + losses trades ≤ totalTrades trades := by
  induction trades with
  | nil => simp [wins, losses, totalTrades]
  | cons t rest ih =>
    simp only [wins, losses, totalTrades, List.filter_cons, ne_eq, decide_not] at ih ⊢
    rcases ht : t.outcome with _ | _ | _ | _ <;>
      simp [ht] <;> omega

/-- Milliseconds per day. -/
def msPerDay : ℤ := 86400000

/-- The UTC calendar day of an instant, as days since the epoch: the integer
that the date-only part of `toISOString()` is in bijection with
(`toISOString` renders the UTC components; flooring division because
pre-epoch instants belong to the preceding day). -/
def utcDayIndex (ms : ℤ) : ℤ := Int.fdiv ms msPerDay

/-- Day of week of a day index, JS convention 0 = Sunday .. 6 = Saturday
(1970-01-01, day 0, was a Thursday, index 4). -/
def dayOfWeekOfIndex (d : ℤ) : ℤ := (d + 4) % 7

/-- Day key used by `dailyTpslData` (`Dashboard.tsx` line 230):
`new Date(trade.date).toISOString().split(sep)[0]`, i.e. the UTC calendar
day. -/
def dailyDayKey (ms : ℤ) : ℤ := utcDayIndex ms

/-- The local calendar day of an instant under a fixed offset of `tzMin`
minutes east of UTC: local components are UTC components of the shifted
instant. -/
def localDayIndex (tzMin ms : ℤ) : ℤ := utcDayIndex (ms + tzMin * 60000)

/-- `date.getDay()` under offset `tzMin`: weekday of the local calendar
day. -/
def localWeekday (tzMin ms : ℤ) : ℤ := dayOfWeekOfIndex (localDayIndex tzMin ms)

/-- Week key used by `weeklyWinRateData` (`Dashboard.tsx` lines 202-204):
`date.setDate(date.getDate() - date.getDay())` shifts the instant back by
`getDay()` whole days (the local day-of-month changes by exactly that amount
and the local clock time is kept, so under a fixed offset the instant moves by
`getDay() * msPerDay`); the key is then the UTC day of the shifted instant
(`toISOString().split(sep)[0]`). -/
def weeklyWeekKey (tzMin ms : ℤ) : ℤ :=
  utcDayIndex (ms - localWeekday tzMin ms * msPerDay)

/-- Weekday computed by `performanceByDayData` (`Dashboard.tsx` lines 310-312)
and by the day-of-week filter (lines 152-155):
`new Date(date.getUTCFullYear(), date.getUTCMonth(), date.getUTCDate())`
denotes local midnight of the UTC calendar day, i.e. the instant
`utcDayIndex ms * msPerDay - tzMin * 60000`, of which `getUTCDay()` is then
taken. -/
def hybridWeekday (tzMin ms : ℤ) : ℤ :=
  dayOfWeekOfIndex (utcDayIndex (utcDayIndex ms * msPerDay - tzMin * 60000))

/-- The day-of-week filter predicate (`Dashboard.tsx` lines 150-157):
`utcDate.getUTCDay().toString() === filters.dayOfWeek` with
`filters.dayOfWeek` one of the digits 1..5. -/
def dayOfWeekFilterMatches (tzMin : ℤ) (t : Trade) (k : ℤ) : Bool :=
  hybridWeekday tzMin t.date == k

/-- Names of the points of the equity curve: the synthetic `Start` point or a
calendar-day key (rendered by the source as the ISO date of the day index). -/
inductive PointName where
  | start
  | day (d : ℤ)
deriving DecidableEq, Repr

/-- One point of the cumulative R/R equity curve. -/
structure CurvePoint where
  name : PointName
  value : ℚ
deriving DecidableEq, Repr

/-- Insertion-ordered day map of `cumulativeRRData`, as an association list:
`dailyData.set(dayKey, (dailyData.get(dayKey) || 0) + tradeRR)` updates the
entry in place when present and appends otherwise (JS `Map` preserves
insertion order). -/
def addToDay (m : List (ℤ × ℚ)) (k : ℤ) (v : ℚ) : List (ℤ × ℚ) :=
  match m with
  | [] => [(k, v)]
  | (k', v') :: rest =>
    if k' = k then (k', v' + v) :: rest
    else (k', v') :: addToDay rest k v

/-- Step 3 of `cumulativeRRData`: running cumulative sum over the day map, in
its (chronological) entry order. -/
def buildCurve (acc : ℚ) (m : List (ℤ × ℚ)) : List CurvePoint :=
  match m with
  | [] => []
  | (d, v) :: rest => { name := PointName.day d, value := acc + v } :: buildCurve (acc + v) rest

/-- Comparator of the date-ascending sort in `cumulativeRRData` (line 256):
`(a, b) => new Date(a.date).getTime() - new Date(b.date).getTime()`. -/
def cmpDateAsc (a b : Trade) : ℚ := (a.date : ℚ) - (b.date : ℚ)

/-- JS `Array.prototype.sort` with a numeric comparator (see the header
comment for the merge convention). -/
def jsSort (cmp : Trade → Trade → ℚ) (l : List Trade) : List Trade :=
  l.mergeSort fun a b => decide (0 ≤ cmp b a)

/-- `cumulativeRRData` (`Dashboard.tsx` lines 252-298): filter out `NO_TRADE`,
sort by date ascending, group per UTC calendar day summing `tradeRR`, take the
running cumulative sum, and prepend the `Start` point — except that an empty
filtered collection returns the empty list before the `Start` point is
built. -/
def cumulativeRRData (trades : List Trade) : List CurvePoint :=
  let sortedTrades := jsSort cmpDateAsc (trades.filter fun t => t.outcome ≠ Outcome.NO_TRADE)
  if sortedTrades.length = 0 then []
  else
    let dailyData := sortedTrades.foldl
      (fun m t => addToDay m (utcDayIndex t.date) (tradeRRCurve t)) []
    { name := PointName.start, value := 0 } :: buildCurve 0 dailyData

/-- Sum of the values of a day map. -/
def dayMapSum (m : List (ℤ × ℚ)) : ℚ := (m.map Prod.snd).sum

theorem dayMapSum_addToDay (m : List (ℤ × ℚ)) (k : ℤ) (v : ℚ) :
    dayMapSum (addToDay m k v) = dayMapSum m + v := by
  induction m with
  | nil => simp [addToDay, dayMapSum]
  | cons e rest ih =>
    rcases e with ⟨k', v'⟩
    by_cases h : k' = k
    · simp [addToDay, dayMapSum, h]
      ring
    · simp only [addToDay, dayMapSum, List.map_cons, List.sum_cons, if_neg h] at ih ⊢
      rw [ih]
      ring

theorem addToDay_ne_nil (m : List (ℤ × ℚ)) (k : ℤ) (v : ℚ) :
    addToDay m k v ≠ [] := by
  cases m with
  | nil => simp [addToDay]
  | cons e rest =>
    rcases e with ⟨k', v'⟩
    by_cases h : k' = k <;> simp [addToDay, h]

theorem dayMapSum_fold (l : List Trade) (m : List (ℤ × ℚ)) :
    dayMapSum (l.foldl (fun m t => addToDay m (utcDayIndex t.date) (tradeRRCurve t)) m)
      = dayMapSum m + (l.map tradeRRCurve).sum := by
  induction l generalizing m with
  | nil => simp
  | cons t rest ih => simp [List.foldl_cons, ih, dayMapSum_addToDay]; ring

theorem fold_addToDay_ne_nil (l : List Trade) (m : List (ℤ × ℚ)) (h : m ≠ [] ∨ l ≠ []) :
    l.foldl (fun m t => addToDay m (utcDayIndex t.date) (tradeRRCurve t)) m ≠ [] := by
  induction l generalizing m with
  | nil => simpa using h
  | cons t rest ih =>
    simp only [List.foldl_cons]
    exact ih _ (Or.inl (addToDay_ne_nil m _ _))

theorem buildCurve_getLast (m : List (ℤ × ℚ)) (acc : ℚ) (h : m ≠ []) :
    ((buildCurve acc m).getLast?.map CurvePoint.value) = some (acc + dayMapSum m) := by
  induction m generalizing acc with
  | nil => exact absurd rfl h
  | cons e rest ih =>
    rcases e with ⟨d, v⟩
    cases hr : rest with
    | nil => simp [buildCurve, dayMapSum]
    | cons e' rest' =>
      subst hr
      have hlast := ih (acc + v) (by simp)
      obtain ⟨x, hx⟩ : ∃ x, (buildCurve (acc + v) (e' :: rest')).getLast? = some x := by
        cases hgl : (buildCurve (acc + v) (e' :: rest')).getLast? with
        | none => rw [hgl] at hlast; simp at hlast
        | some y => exact ⟨y, rfl⟩
      rw [hx] at hlast
      simp only [Option.map_some', Option.some.injEq] at hlast
      have hstep : buildCurve acc ((d, v) :: e' :: rest')
          = { name := PointName.day d, value := acc + v } :: buildCurve (acc + v) (e' :: rest') := rfl
      rw [hstep, List.getLast?_cons, hx]
      simp only [Option.getD_some, Option.map_some', Option.some.injEq, hlast, dayMapSum,
        List.map_cons, List.sum_cons]
      ring

/-- The two inline copies of the risk/reward resolution (in `stats` and in
`cumulativeRRData`) agree on every record: their only difference is the order
of the two truthiness checks in a conjunction. -/
theorem rrContribStats_eq_tradeRRCurve (t : Trade) :
    rrContribStats t = tradeRRCurve t := by
  unfold rrContribStats tradeRRCurve
  cases t.rr with
  | some r => rfl
  | none =>
    have : (t.outcome = Outcome.TP && numTruthy t.slSize && numTruthy t.tpSize
        && decide (0 < optVal t.slSize))
        = (t.outcome = Outcome.TP && numTruthy t.tpSize && numTruthy t.slSize
        && decide (0 < optVal t.slSize)) := by
      cases decide (t.outcome = Outcome.TP) <;> cases numTruthy t.slSize <;>
        cases numTruthy t.tpSize <;> rfl
    simp only [this]

theorem foldl_add_eq_sum (f : Trade → ℚ) (l : List Trade) (acc : ℚ) :
    l.foldl (fun a t => a + f t) acc = acc + (l.map f).sum := by
  induction l generalizing acc with
  | nil => simp
  | cons t rest ih => simp [ih]; ring

theorem totalRREarned_eq_sum (trades : List Trade) :
    totalRREarned trades
      = ((trades.filter fun t => t.outcome ≠ Outcome.NO_TRADE).map rrContribStats).sum := by
  simp [totalRREarned, foldl_add_eq_sum]

/-- C1: for every record with outcome `STOP_LOSS` the per-trade risk multiple
used by the aggregation is exactly `-1`, regardless of any explicit
`realizedRiskMultiple` (`rr`) override, in both the total-risk-earned summary
(`rrContribStats`) and the cumulative equity curve (`tradeRRCurve`). -/
theorem stopLoss_riskMultiple_neg_one (t : Trade) (h : t.outcome = Outcome.SL) :
    rrContribStats t = -1 ∧ tradeRRCurve t = -1 := by
  unfold rrContribStats tradeRRCurve
  cases t.rr with
  | some r => simp [h]
  | none => simp [h]

def sampleSLTrade : Trade :=
  { id := "c1", date := 0, outcome := Outcome.SL, rr := some 3 }

theorem stopLoss_riskMultiple_neg_one_w :
    rrContribStats sampleSLTrade = -1 ∧ tradeRRCurve sampleSLTrade = -1 :=
  stopLoss_riskMultiple_neg_one sampleSLTrade rfl

/-- C2 counterexample: for the empty collection the cumulative curve is the
empty list (the source returns early before prepending the Start point), so
its first point is not `Start`. -/
theorem cumulative_curve_start_cex :
    ¬ ((cumulativeRRData []).head? = some { name := PointName.start, value := 0 }) := by
  have h : cumulativeRRData [] = [] := by
    simp [cumulativeRRData, jsSort]
  rw [h]
  simp

/-- C2 amended: when the collection has at least one non-`NO_TRADE` record,
the cumulative curve starts with the synthetic point `Start`/`0` and its last
cumulative value equals `totalRREarned` of the same collection; when it has
none (in particular for the empty collection), the curve is empty. -/
theorem cumulative_curve_consistency (trades : List Trade) :
    ((trades.filter fun t => t.outcome ≠ Outcome.NO_TRADE) = [] →
       cumulativeRRData trades = []) ∧
    ((trades.filter fun t => t.outcome ≠ Outcome.NO_TRADE) ≠ [] →
       (cumulativeRRData trades).head? = some { name := PointName.start, value := 0 } ∧
       ((cumulativeRRData trades).getLast?.map CurvePoint.value)
         = some (totalRREarned trades)) := by
  have hperm : List.Perm (jsSort cmpDateAsc (trades.filter fun t => t.outcome ≠ Outcome.NO_TRADE))
      (trades.filter fun t => t.outcome ≠ Outcome.NO_TRADE) :=
    List.mergeSort_perm _ _
  constructor
  · intro h
    have h2 : jsSort cmpDateAsc (trades.filter fun t => t.outcome ≠ Outcome.NO_TRADE) = [] := by
      rw [h]
      simp [jsSort]
    unfold cumulativeRRData
    rw [h2]
    rfl
  · intro h
    have hlen : (jsSort cmpDateAsc (trades.filter fun t => t.outcome ≠ Outcome.NO_TRADE)).length ≠ 0 := by
      rw [List.Perm.length_eq hperm]
      simpa [List.length_eq_zero] using h
    have hsne : jsSort cmpDateAsc (trades.filter fun t => t.outcome ≠ Outcome.NO_TRADE) ≠ [] := by
      intro hc; rw [hc] at hlen; simp at hlen
    have hD : (jsSort cmpDateAsc (trades.filter fun t => t.outcome ≠ Outcome.NO_TRADE)).foldl
        (fun m t => addToDay m (utcDayIndex t.date) (tradeRRCurve t)) [] ≠ [] :=
      fold_addToDay_ne_nil _ _ (Or.inr hsne)
    have hcurve : cumulativeRRData trades
        = { name := PointName.start, value := 0 }
          :: buildCurve 0 ((jsSort cmpDateAsc (trades.filter fun t => t.outcome ≠ Outcome.NO_TRADE)).foldl
            (fun m t => addToDay m (utcDayIndex t.date) (tradeRRCurve t)) []) := by
      simp only [cumulativeRRData]
      rw [if_neg hlen]
    refine ⟨by rw [hcurve]; rfl, ?_⟩
    have hsum : dayMapSum ((jsSort cmpDateAsc (trades.filter fun t => t.outcome ≠ Outcome.NO_TRADE)).foldl
        (fun m t => addToDay m (utcDayIndex t.date) (tradeRRCurve t)) [])
        = totalRREarned trades := by
      rw [dayMapSum_fold]
      have hmap : ((jsSort cmpDateAsc (trades.filter fun t => t.outcome ≠ Outcome.NO_TRADE)).map tradeRRCurve).sum
          = (((trades.filter fun t => t.outcome ≠ Outcome.NO_TRADE)).map tradeRRCurve).sum :=
        List.Perm.sum_eq (hperm.map tradeRRCurve)
      rw [hmap, totalRREarned_eq_sum]
      have hfun : rrContribStats = tradeRRCurve := funext rrContribStats_eq_tradeRRCurve
      rw [hfun]
      simp [dayMapSum]
    have hbuild := buildCurve_getLast _ 0 hD
    obtain ⟨x, hx⟩ : ∃ x, (buildCurve 0 ((jsSort cmpDateAsc (trades.filter fun t => t.outcome ≠ Outcome.NO_TRADE)).foldl
        (fun m t => addToDay m (utcDayIndex t.date) (tradeRRCurve t)) [])).getLast? = some x := by
      cases hgl : (buildCurve 0 ((jsSort cmpDateAsc (trades.filter fun t => t.outcome ≠ Outcome.NO_TRADE)).foldl
          (fun m t => addToDay m (utcDayIndex t.date) (tradeRRCurve t)) [])).getLast? with
      | none => rw [hgl] at hbuild; simp at hbuild
      | some y => exact ⟨y, rfl⟩
    rw [hcurve, List.getLast?_cons, hx]
    rw [hx] at hbuild
    simp only [Option.map_some', Option.some.injEq, Option.getD_some] at hbuild ⊢
    rw [hbuild, hsum]
    ring_nf

def sampleC2Trade : Trade :=
  { id := "c2", date := 0, outcome := Outcome.SL }

theorem cumulative_curve_consistency_w :
    cumulativeRRData ([] : List Trade) = [] ∧
    ((cumulativeRRData [sampleC2Trade]).head? = some { name := PointName.start, value := 0 } ∧
      ((cumulativeRRData [sampleC2Trade]).getLast?.map CurvePoint.value)
        = some (totalRREarned [sampleC2Trade])) :=
  ⟨(cumulative_curve_consistency []).1 rfl,
   (cumulative_curve_consistency [sampleC2Trade]).2 (by decide)⟩

/-- C3: for every collection (the empty one included) the summary statistics
are total and numeric: `winRate` equals `wins/(wins+losses)` as a percentage
with an explicit `0` fallback when `wins + losses = 0`, and `averageRR`
equals `totalRREarned/totalTrades` with an explicit `0` fallback when
`totalTrades = 0` — the source's extra `totalTrades > 0` conjunct in the
win-rate guard is redundant because `wins + losses ≤ totalTrades`. -/
theorem summary_stats_total_defined (trades : List Trade) :
    winRate trades = winRateSpec trades ∧ averageRR trades = averageRRSpec trades := by
  constructor
  · unfold winRate winRateSpec
    by_cases h : wins trades + losses trades = 0
    · have h1 : ¬ (0 < totalTrades trades ∧ 0 < wins trades + losses trades) := by omega
      simp [h, h1]
    · have hle := wins_add_losses_le_totalTrades trades
      have h1 : 0 < totalTrades trades ∧ 0 < wins trades + losses trades := by omega
      simp [h, h1]
  · unfold averageRR averageRRSpec
    by_cases h : totalTrades trades = 0
    · simp [h]
    · simp [h, Nat.pos_of_ne_zero h]

/-- C4: the three series do not share a single calendar-day rule.  For a
record dated 2024-06-03T00:00:00.000Z (epoch ms 1717372800000, UTC day index
19877, a Monday): under UTC offset +120 min the day-of-week breakdown's
weekday (`hybridWeekday`, via the local-constructor reinterpretation of the
UTC components) is Sunday while the daily TP/SL series' day
(`dailyDayKey`, pure UTC) is the Monday 19877; and under UTC offset -300 min
the weekly series' week key (`weeklyWeekKey`, from local date components)
differs from the Sunday that starts the week of the daily series' day. -/
theorem day_grouping_rules_disagree :
    hybridWeekday 120 1717372800000 ≠ dayOfWeekOfIndex (dailyDayKey 1717372800000) ∧
    weeklyWeekKey (-300) 1717372800000
      ≠ dailyDayKey 1717372800000 - dayOfWeekOfIndex (dailyDayKey 1717372800000) := by
  constructor
  · intro h
    have h1 : hybridWeekday 120 1717372800000 = 0 := by decide
    have h2 : dayOfWeekOfIndex (dailyDayKey 1717372800000) = 1 := by decide
    rw [h1, h2] at h
    exact absurd h (by decide)
  · intro h
    have h1 : weeklyWeekKey (-300) 1717372800000 = 19877 := by decide
    have h2 : dailyDayKey 1717372800000 - dayOfWeekOfIndex (dailyDayKey 1717372800000)
        = 19876 := by decide
    rw [h1, h2] at h
    exact absurd h (by decide)

def sampleMondayTrade : Trade :=
  { id := "c6", date := 1717372800000, outcome := Outcome.TP }

/-- C6: the weekday filter does not match against the calendar-date-derived
weekday.  `sampleMondayTrade` is dated 2024-06-03T00:00:00.000Z, whose
calendar date components give weekday 1 (Monday), yet under UTC offset
+120 min the filter with `k = 1` rejects the record (its hybrid derivation
yields Sunday). -/
theorem dayOfWeek_filter_mismatch :
    dayOfWeekFilterMatches 120 sampleMondayTrade 1 = false ∧
    dayOfWeekOfIndex (utcDayIndex sampleMondayTrade.date) = 1 := by
  constructor
  · decide
  · decide

/-- `s.trim() !== ""` of the source, modelled directly: the trimmed string is
non-empty exactly when some character of `s` is not whitespace. -/
def trimNonEmpty (s : String) : Bool := s.data.any fun c => !c.isWhitespace

/-- JS truthiness of the optional `slSweepNotes` string combined with the
trim check of `analyzeSlSweepsWithAI` (`geminiService.ts` line 132):
`trade.slSweepNotes && trade.slSweepNotes.trim() !== ""`. -/
def qualifiesSweepNote : Option String → Bool
  | none => false
  | some s => s != "" && trimNonEmpty s

/-- The qualifying stop-sweep notes, each prefixed with the bullet marker
(`geminiService.ts` lines 131-133). -/
def slSweepNotesList (trades : List Trade) : List String :=
  (trades.filter fun t => qualifiesSweepNote t.slSweepNotes).map
    fun t => "- " ++ t.slSweepNotes.getD ""

/-- Outcome of the stop-sweep analysis entry point before any network
activity: either the fixed short-circuit message, or the prompt payload that
is sent to the external collaborator. -/
inductive SweepAnalysis where
  | message (s : String)
  | invoke (prompt : String)
deriving DecidableEq, Repr

/-- The fixed short-circuit message of `analyzeSlSweepsWithAI`
(`geminiService.ts` line 136). -/
def notEnoughNotesMsg : String :=
  "There aren\x27t enough \x27SL Sweep Notes\x27 to perform a meaningful analysis. Please add more detailed notes to your losing trades to use this feature."

/-- `analyzeSlSweepsWithAI` (`geminiService.ts` lines 110-139) up to the
network boundary: throws when no API credential is configured, short-circuits
with the fixed message when fewer than 3 qualifying notes exist, and
otherwise builds the prompt that is sent to the collaborator. -/
def analyzeSlSweeps (apiKey : Option String) (trades : List Trade) :
    Except String SweepAnalysis :=
  match apiKey with
  | none => Except.error "API_KEY environment variable not set"
  | some _ =>
    let notes := slSweepNotesList trades
    if notes.length < 3 then Except.ok (SweepAnalysis.message notEnoughNotesMsg)
    else Except.ok (SweepAnalysis.invoke
      ("Here are the trader\x27s notes on the candles that triggered their stop losses:\n\n"
        ++ String.intercalate "\n" notes
        ++ "\n\nPlease analyze these for recurring patterns."))

/-- The source's truthiness-plus-trim test agrees with the claim's counting
notion, a note that is non-empty after trimming. -/
theorem sweepNote_qualifies_eq (o : Option String) :
    qualifiesSweepNote o = trimNonEmpty (o.getD "") := by
  cases o with
  | none => rfl
  | some s =>
    show (s != "" && trimNonEmpty s) = trimNonEmpty s
    by_cases h : s = ""
    · subst h
      rfl
    · simp [h]

/-- C5: with an API credential configured, the stop-sweep projection
short-circuits with the fixed message whenever fewer than 3 notes are
non-empty after trimming, never reaching the collaborator, and with 3 or more
such notes it builds and sends the prompt payload. -/
theorem slSweep_min_notes_gate (key : String) (trades : List Trade) :
    ((trades.filter fun t => trimNonEmpty (t.slSweepNotes.getD "")).length < 3 →
       analyzeSlSweeps (some key) trades
         = Except.ok (SweepAnalysis.message notEnoughNotesMsg)) ∧
    (3 ≤ (trades.filter fun t => trimNonEmpty (t.slSweepNotes.getD "")).length →
       ∃ p, analyzeSlSweeps (some key) trades = Except.ok (SweepAnalysis.invoke p)) := by
  have hcount : (slSweepNotesList trades).length
      = (trades.filter fun t => trimNonEmpty (t.slSweepNotes.getD "")).length := by
    unfold slSweepNotesList
    rw [List.length_map]
    congr 1
    apply List.filter_congr
    intro t _
    exact sweepNote_qualifies_eq t.slSweepNotes
  constructor
  · intro h
    unfold analyzeSlSweeps
    rw [if_pos]
    rw [hcount]
    exact h
  · intro h
    unfold analyzeSlSweeps
    rw [if_neg]
    · exact ⟨_, rfl⟩
    · rw [hcount]
      omega

def sampleSweepTrades2 : List Trade :=
  [ { id := "s1", date := 0, outcome := Outcome.SL, slSweepNotes := some "sweep of lows" },
    { id := "s2", date := 0, outcome := Outcome.SL, slSweepNotes := some "news spike" },
    { id := "s3", date := 0, outcome := Outcome.SL, slSweepNotes := some "   " },
    { id := "s4", date := 0, outcome := Outcome.NO_TRADE } ]

def sampleSweepTrades3 : List Trade :=
  [ { id := "s1", date := 0, outcome := Outcome.SL, slSweepNotes := some "sweep of lows" },
    { id := "s2", date := 0, outcome := Outcome.SL, slSweepNotes := some "news spike" },
    { id := "s3", date := 0, outcome := Outcome.SL, slSweepNotes := some "doji wick" } ]

theorem slSweep_min_notes_gate_w :
    analyzeSlSweeps (some "k") sampleSweepTrades2
      = Except.ok (SweepAnalysis.message notEnoughNotesMsg) ∧
    (∃ p, analyzeSlSweeps (some "k") sampleSweepTrades3
      = Except.ok (SweepAnalysis.invoke p)) :=
  ⟨(slSweep_min_notes_gate "k" sampleSweepTrades2).1 (by decide),
   (slSweep_min_notes_gate "k" sampleSweepTrades3).2 (by decide)⟩

/-- A consolidation-range bucket as parsed from the filter value
(`Dashboard.tsx` lines 141-143): `min` from the part before the dash, `max`
from the part after it, `none` encoding the `Infinity` used when that part is
empty (the `20-` bucket). -/
structure RangeBucket where
  min : ℚ
  max : Option ℚ
deriving DecidableEq, Repr

/-- The range-size filter predicate (`Dashboard.tsx` lines 145-148): records
with no `rangeSize` never match; otherwise `min <= r && r < max`, with
`r < Infinity` always true. -/
def rangeFilterMatches (b : RangeBucket) (t : Trade) : Bool :=
  match t.rangeSize with
  | none => false
  | some r =>
    decide (b.min ≤ r) &&
      (match b.max with
       | none => true
       | some mx => decide (r < mx))

/-- C7: a bounded bucket `[min, max)` matches exactly the records whose
`rangeSize` satisfies `min ≤ r < max` (upper bound exclusive), and a record
with no `rangeSize` matches no bucket at all. -/
theorem rangeFilter_halfOpen (t : Trade) (mn mx : ℚ) :
    (rangeFilterMatches { min := mn, max := some mx } t = true
        ↔ ∃ r, t.rangeSize = some r ∧ mn ≤ r ∧ r < mx) ∧
    (∀ b : RangeBucket, t.rangeSize = none → rangeFilterMatches b t = false) := by
  constructor
  · cases hr : t.rangeSize with
    | none => simp [rangeFilterMatches, hr]
    | some r =>
      simp only [rangeFilterMatches, hr, Bool.and_eq_true, decide_eq_true_eq,
        Option.some.injEq]
      constructor
      · rintro ⟨h1, h2⟩
        exact ⟨r, rfl, h1, h2⟩
      · rintro ⟨r', hr', h1, h2⟩
        subst hr'
        exact ⟨h1, h2⟩
  · intro b hnone
    simp [rangeFilterMatches, hnone]

def sampleRangeTrade10 : Trade :=
  { id := "c7a", date := 0, outcome := Outcome.TP, rangeSize := some 10 }

def sampleRangeTradeNone : Trade :=
  { id := "c7b", date := 0, outcome := Outcome.TP }

theorem rangeFilter_halfOpen_w :
    rangeFilterMatches { min := 5, max := some 10 } sampleRangeTrade10 = false ∧
    rangeFilterMatches { min := 5, max := some 10 } sampleRangeTradeNone = false := by
  constructor
  · by_contra h
    rw [Bool.not_eq_false] at h
    obtain ⟨r, hr, _, hlt⟩ := (rangeFilter_halfOpen sampleRangeTrade10 5 10).1.mp h
    have h10 : (10 : ℚ) = r := by
      simpa [sampleRangeTrade10] using hr
    subst h10
    exact absurd hlt (by norm_num)
  · exact (rangeFilter_halfOpen sampleRangeTradeNone 5 10).2 _ rfl

/-- `deleteTrade` (`useTrades.ts` lines 32-34):
`prevTrades.filter(trade => trade.id !== id)`. -/
def deleteTrade (tid : String) (trades : List Trade) : List Trade :=
  trades.filter fun t => t.id ≠ tid

/-- C9: `deleteTrade` removes exactly the records whose `id` equals the given
identifier and keeps every other record, in its original relative order (the
result is a sublist of the input). -/
theorem deleteTrade_frame (tid : String) (l : List Trade) :
    (∀ t, t ∈ deleteTrade tid l ↔ (t ∈ l ∧ t.id ≠ tid)) ∧
    List.Sublist (deleteTrade tid l) l := by
  constructor
  · intro t
    simp [deleteTrade, List.mem_filter]
  · exact List.filter_sublist l

/-- Comparator of the date-descending sort in `addTrade` (`useTrades.ts`
line 29): `(a, b) => new Date(b.date).getTime() - new Date(a.date).getTime()`. -/
def cmpDateDesc (a b : Trade) : ℚ := (b.date : ℚ) - (a.date : ℚ)

/-- `addTrade` (`useTrades.ts` lines 24-30): build the new record from the
submitted data and a freshly generated identifier (the clock/randomness that
produces it is abstracted as the `freshId` argument), append it to the
previous collection and sort the whole collection by date descending. -/
def addTrade (prev : List Trade) (tradeData : Trade) (freshId : String) : List Trade :=
  jsSort cmpDateDesc (prev ++ [{ tradeData with id := freshId }])

theorem sortLeDateDesc_trans (a b c : Trade)
    (hab : decide (0 ≤ cmpDateDesc b a) = true)
    (hbc : decide (0 ≤ cmpDateDesc c b) = true) :
    decide (0 ≤ cmpDateDesc c a) = true := by
  simp only [cmpDateDesc, decide_eq_true_eq, sub_nonneg] at *
  exact le_trans hbc hab

theorem sortLeDateDesc_total (a b : Trade) :
    (decide (0 ≤ cmpDateDesc b a) || decide (0 ≤ cmpDateDesc a b)) = true := by
  simp only [cmpDateDesc, Bool.or_eq_true, decide_eq_true_eq, sub_nonneg]
  exact le_total _ _

/-- C10: after `addTrade` the stored collection is a permutation of the
previous records plus the new record (with the freshly assigned identifier),
and it is sorted by date in descending order — the newest-first invariant is
re-established on every insertion. -/
theorem addTrade_invariant (prev : List Trade) (tradeData : Trade) (freshId : String) :
    List.Perm (addTrade prev tradeData freshId)
      (prev ++ [{ tradeData with id := freshId }]) ∧
    (addTrade prev tradeData freshId).Pairwise (fun a b => b.date ≤ a.date) := by
  constructor
  · exact List.mergeSort_perm _ _
  · have hs := @List.sorted_mergeSort Trade (fun a b => decide (0 ≤ cmpDateDesc b a))
      (fun a b c => sortLeDateDesc_trans a b c)
      (fun a b => sortLeDateDesc_total a b)
      (prev ++ [{ tradeData with id := freshId }])
    refine hs.imp ?_
    intro a b h
    simpa [cmpDateDesc, sub_nonneg] using h

/-- The six sortable columns of the trade-history table (`Dashboard.tsx`
lines 510-515). -/
inductive SortKey where
  | date
  | activationTime
  | type
  | outcome
  | rr
  | rangeSize
deriving DecidableEq, Repr

inductive SortDirection where
  | ascending
  | descending
deriving DecidableEq, Repr

/-- A sort-key value as the comparator sees it: a JS number or a string. -/
inductive SortValue where
  | num (q : ℚ)
  | str (s : String)
deriving DecidableEq, Repr

/-- The string of an `Outcome` enum member. -/
def outcomeKeyStr : Outcome → String
  | Outcome.TP => "TP"
  | Outcome.SL => "SL"
  | Outcome.BE => "BE"
  | Outcome.NO_TRADE => "NO_TRADE"

/-- The string of a `TradeType` enum member. -/
def tradeTypeKeyStr : TradeType → String
  | TradeType.BUY => "BUY"
  | TradeType.SELL => "SELL"

/-- `a[sortConfig.key]` of the comparator (`Dashboard.tsx` lines 160-161):
the record's value at the sort key, `none` for `undefined`.  The `date` key
yields the epoch-milliseconds number (the comparator immediately converts the
date string through `getTime()`, line 168, a monotone bijection). -/
def keyValue : SortKey → Trade → Option SortValue
  | SortKey.date, t => some (SortValue.num (t.date : ℚ))
  | SortKey.activationTime, t => t.activationTime.map SortValue.str
  | SortKey.type, t => t.type.map fun ty => SortValue.str (tradeTypeKeyStr ty)
  | SortKey.outcome, t => some (SortValue.str (outcomeKeyStr t.outcome))
  | SortKey.rr, t => t.rr.map SortValue.num
  | SortKey.rangeSize, t => t.rangeSize.map SortValue.num

/-- The sign of `String(aValue).localeCompare(String(bValue))` (line 172),
modelled as comparison in a fixed total order on strings; the claims proved
below depend only on it being a linear order. -/
def strSign (x y : String) : ℚ :=
  if x < y then -1 else if y < x then 1 else 0

/-- `String(value)` as used by the string comparison branch. -/
def svStr : SortValue → String
  | SortValue.num q => toString q
  | SortValue.str s => s

/-- The typed comparison of two present key values (lines 166-173): numbers
compare by difference, anything else by string comparison.  (For the `date`
key both values are numbers after `getTime()`, so the dedicated date branch
coincides with the numeric one.) -/
def cmpSV (x y : SortValue) : ℚ :=
  match x, y with
  | SortValue.num a, SortValue.num b => a - b
  | x, y => strSign (svStr x) (svStr y)

/-- The full comparator of `filteredAndSortedTrades` (lines 159-176):
a missing value on the left sorts last (returns 1 before the direction is
applied), then a missing value on the right, then the typed comparison,
negated for descending direction. -/
def tradeCmp (k : SortKey) (dir : SortDirection) (a b : Trade) : ℚ :=
  match keyValue k a, keyValue k b with
  | none, _ => 1
  | some _, none => -1
  | some va, some vb =>
    match dir with
    | SortDirection.ascending => cmpSV va vb
    | SortDirection.descending => -(cmpSV va vb)

/-- The keep-left-first relation of the sort (see the header comment). -/
def sortLe (k : SortKey) (dir : SortDirection) (a b : Trade) : Bool :=
  decide (0 ≤ tradeCmp k dir b a)

/-- The sort of `filteredAndSortedTrades`. -/
def sortTrades (k : SortKey) (dir : SortDirection) (l : List Trade) : List Trade :=
  l.mergeSort (sortLe k dir)

/-- Keys whose present values are numbers (the others yield strings). -/
def numKey : SortKey → Bool
  | SortKey.date => true
  | SortKey.activationTime => false
  | SortKey.type => false
  | SortKey.outcome => false
  | SortKey.rr => true
  | SortKey.rangeSize => true

theorem keyValue_num_shape (k : SortKey) (hk : numKey k = true) (t : Trade)
    (v : SortValue) (hv : keyValue k t = some v) : ∃ q, v = SortValue.num q := by
  cases k with
  | date =>
    simp only [keyValue, Option.some.injEq] at hv
    exact ⟨_, hv.symm⟩
  | activationTime => simp [numKey] at hk
  | type => simp [numKey] at hk
  | outcome => simp [numKey] at hk
  | rr =>
    cases h : t.rr with
    | none => rw [keyValue, h] at hv; simp at hv
    | some q =>
      rw [keyValue, h] at hv
      simp only [Option.map_some', Option.some.injEq] at hv
      exact ⟨q, hv.symm⟩
  | rangeSize =>
    cases h : t.rangeSize with
    | none => rw [keyValue, h] at hv; simp at hv
    | some q =>
      rw [keyValue, h] at hv
      simp only [Option.map_some', Option.some.injEq] at hv
      exact ⟨q, hv.symm⟩

theorem keyValue_str_shape (k : SortKey) (hk : numKey k = false) (t : Trade)
    (v : SortValue) (hv : keyValue k t = some v) : ∃ s, v = SortValue.str s := by
  cases k with
  | date => simp [numKey] at hk
  | rr => simp [numKey] at hk
  | rangeSize => simp [numKey] at hk
  | activationTime =>
    cases h : t.activationTime with
    | none => rw [keyValue, h] at hv; simp at hv
    | some s =>
      rw [keyValue, h] at hv
      simp only [Option.map_some', Option.some.injEq] at hv
      exact ⟨s, hv.symm⟩
  | type =>
    cases h : t.type with
    | none => rw [keyValue, h] at hv; simp at hv
    | some ty =>
      rw [keyValue, h] at hv
      simp only [Option.map_some', Option.some.injEq] at hv
      exact ⟨tradeTypeKeyStr ty, hv.symm⟩
  | outcome =>
    simp only [keyValue, Option.some.injEq] at hv
    exact ⟨_, hv.symm⟩

theorem strSign_antisymm (x y : String) : strSign x y = -(strSign y x) := by
  unfold strSign
  rcases lt_trichotomy x y with h | h | h
  · simp [h, asymm h]
  · subst h
    simp
  · simp [h, asymm h]

theorem cmpSV_antisymm (x y : SortValue) : cmpSV x y = -(cmpSV y x) := by
  cases x with
  | num a =>
    cases y with
    | num b => show a - b = -(b - a); ring
    | str s => exact strSign_antisymm _ _
  | str s =>
    cases y with
    | num b => exact strSign_antisymm _ _
    | str u => exact strSign_antisymm _ _

theorem strSign_nonneg_iff (x y : String) : 0 ≤ strSign x y ↔ y ≤ x := by
  unfold strSign
  rcases lt_trichotomy x y with h | h | h
  · rw [if_pos h]
    constructor
    · intro hh
      norm_num at hh
    · intro hh
      exact absurd hh (not_le.mpr h)
  · subst h
    simp
  · rw [if_neg (asymm h), if_pos h]
    constructor
    · intro _
      exact le_of_lt h
    · intro _
      norm_num

theorem strSign_nonpos_iff (x y : String) : strSign x y ≤ 0 ↔ x ≤ y := by
  rw [strSign_antisymm x y]
  constructor
  · intro h
    exact (strSign_nonneg_iff y x).mp (by linarith)
  · intro h
    have := (strSign_nonneg_iff y x).mpr h
    linarith

theorem cmpSV_num_eq (a b : ℚ) :
    cmpSV (SortValue.num a) (SortValue.num b) = a - b := rfl

theorem cmpSV_str_eq (s u : String) :
    cmpSV (SortValue.str s) (SortValue.str u) = strSign s u := rfl

theorem tradeCmp_none_left (k : SortKey) (dir : SortDirection) (a b : Trade)
    (hA : keyValue k a = none) : tradeCmp k dir a b = 1 := by
  unfold tradeCmp
  rw [hA]

theorem tradeCmp_some_none (k : SortKey) (dir : SortDirection) (a b : Trade)
    (va : SortValue) (hA : keyValue k a = some va) (hB : keyValue k b = none) :
    tradeCmp k dir a b = -1 := by
  unfold tradeCmp
  rw [hA, hB]

theorem tradeCmp_some_some_asc (k : SortKey) (a b : Trade)
    (va vb : SortValue) (hA : keyValue k a = some va) (hB : keyValue k b = some vb) :
    tradeCmp k SortDirection.ascending a b = cmpSV va vb := by
  unfold tradeCmp
  rw [hA, hB]

theorem tradeCmp_some_some_desc (k : SortKey) (a b : Trade)
    (va vb : SortValue) (hA : keyValue k a = some va) (hB : keyValue k b = some vb) :
    tradeCmp k SortDirection.descending a b = -(cmpSV va vb) := by
  unfold tradeCmp
  rw [hA, hB]

theorem sortLe_total (k : SortKey) (dir : SortDirection) (a b : Trade) :
    (sortLe k dir a b || sortLe k dir b a) = true := by
  unfold sortLe
  cases hB : keyValue k b with
  | none =>
    rw [tradeCmp_none_left k dir b a hB]
    simp only [Bool.or_eq_true, decide_eq_true_eq]
    left
    norm_num
  | some vb =>
    cases hA : keyValue k a with
    | none =>
      rw [tradeCmp_none_left k dir a b hA]
      simp only [Bool.or_eq_true, decide_eq_true_eq]
      right
      norm_num
    | some va =>
      have hanti := cmpSV_antisymm va vb
      simp only [Bool.or_eq_true, decide_eq_true_eq]
      cases dir with
      | ascending =>
        rw [tradeCmp_some_some_asc k b a vb va hB hA,
          tradeCmp_some_some_asc k a b va vb hA hB, hanti]
        rcases le_total 0 (cmpSV vb va) with h | h
        · left
          exact h
        · right
          linarith
      | descending =>
        rw [tradeCmp_some_some_desc k b a vb va hB hA,
          tradeCmp_some_some_desc k a b va vb hA hB, hanti]
        rcases le_total 0 (cmpSV vb va) with h | h
        · right
          linarith
        · left
          linarith

theorem sortLe_trans (k : SortKey) (dir : SortDirection) (a b c : Trade)
    (hab : sortLe k dir a b = true) (hbc : sortLe k dir b c = true) :
    sortLe k dir a c = true := by
  unfold sortLe at *
  cases hC : keyValue k c with
  | none =>
    rw [tradeCmp_none_left k dir c a hC]
    simp only [decide_eq_true_eq]
    norm_num
  | some vc =>
    cases hB : keyValue k b with
    | none =>
      rw [tradeCmp_some_none k dir c b vc hC hB] at hbc
      simp only [decide_eq_true_eq] at hbc
      norm_num at hbc
    | some vb =>
      cases hA : keyValue k a with
      | none =>
        rw [tradeCmp_some_none k dir b a vb hB hA] at hab
        simp only [decide_eq_true_eq] at hab
        norm_num at hab
      | some va =>
        cases hnk : numKey k with
        | true =>
          obtain ⟨qa, rfl⟩ := keyValue_num_shape k hnk a va hA
          obtain ⟨qb, rfl⟩ := keyValue_num_shape k hnk b vb hB
          obtain ⟨qc, rfl⟩ := keyValue_num_shape k hnk c vc hC
          cases dir with
          | ascending =>
            rw [tradeCmp_some_some_asc k b a _ _ hB hA, cmpSV_num_eq] at hab
            rw [tradeCmp_some_some_asc k c b _ _ hC hB, cmpSV_num_eq] at hbc
            rw [tradeCmp_some_some_asc k c a _ _ hC hA, cmpSV_num_eq]
            simp only [decide_eq_true_eq] at hab hbc ⊢
            linarith
          | descending =>
            rw [tradeCmp_some_some_desc k b a _ _ hB hA, cmpSV_num_eq] at hab
            rw [tradeCmp_some_some_desc k c b _ _ hC hB, cmpSV_num_eq] at hbc
            rw [tradeCmp_some_some_desc k c a _ _ hC hA, cmpSV_num_eq]
            simp only [decide_eq_true_eq] at hab hbc ⊢
            linarith
        | false =>
          obtain ⟨sa, rfl⟩ := keyValue_str_shape k hnk a va hA
          obtain ⟨sb, rfl⟩ := keyValue_str_shape k hnk b vb hB
          obtain ⟨sc, rfl⟩ := keyValue_str_shape k hnk c vc hC
          cases dir with
          | ascending =>
            rw [tradeCmp_some_some_asc k b a _ _ hB hA, cmpSV_str_eq] at hab
            rw [tradeCmp_some_some_asc k c b _ _ hC hB, cmpSV_str_eq] at hbc
            rw [tradeCmp_some_some_asc k c a _ _ hC hA, cmpSV_str_eq]
            simp only [decide_eq_true_eq] at hab hbc ⊢
            rw [strSign_nonneg_iff] at hab hbc ⊢
            exact le_trans hab hbc
          | descending =>
            rw [tradeCmp_some_some_desc k b a _ _ hB hA, cmpSV_str_eq] at hab
            rw [tradeCmp_some_some_desc k c b _ _ hC hB, cmpSV_str_eq] at hbc
            rw [tradeCmp_some_some_desc k c a _ _ hC hA, cmpSV_str_eq]
            simp only [decide_eq_true_eq] at hab hbc ⊢
            rw [neg_nonneg] at hab hbc ⊢
            rw [strSign_nonpos_iff] at hab hbc ⊢
            exact le_trans hbc hab

/-- C8: the sort of the filter-and-sort pipeline is idempotent — re-applying
the sort with the same key and direction to an already-sorted sequence leaves
it unchanged, for every key and direction, null-valued records included. -/
theorem sort_pipeline_idempotent (k : SortKey) (dir : SortDirection) (l : List Trade) :
    sortTrades k dir (sortTrades k dir l) = sortTrades k dir l := by
  unfold sortTrades
  apply List.mergeSort_of_sorted
  exact List.sorted_mergeSort (fun a b c => sortLe_trans k dir a b c)
    (fun a b => sortLe_total k dir a b) l
